import Mathlib

/-!
Toy robot simulator: verification of the core transition logic.

Shallow embedding of `toy_robot.py`: the robot state dictionary, the
transition functions `place`, `move`, `rotate_left`, `rotate_right`,
`report`, and the line interpreter `process_line`, together with the
run loop over a list of input lines.

Python `None` is modelled as `Option.none` in the state fields.  An
operation that could raise a Python exception (`TypeError` from
arithmetic on `None`, `ValueError` from `list.index`) returns `none`;
these branches are unreachable from the initial state, which the
invariant theorems make precise.  String helpers (`strip`, `split`,
`upper`, `int`) are modelled over the character lists of the strings,
following CPython semantics for ASCII input (Python's `int` also
accepts non-ASCII digits, which no claim here touches).
-/

namespace ToyRobot

/-- Constant `TABLE_WIDTH = 5` from `toy_robot.py`. -/
def TABLE_WIDTH : Int := 5

/-- Constant `TABLE_HEIGHT = 5` from `toy_robot.py`. -/
def TABLE_HEIGHT : Int := 5

/-- Constant `DIRECTIONS = ["NORTH", "EAST", "SOUTH", "WEST"]` from `toy_robot.py`. -/
def DIRECTIONS : List String := ["NORTH", "EAST", "SOUTH", "WEST"]

/-- The robot state dictionary: `x`, `y`, `facing` start as Python `None`
(modelled by `Option.none`), `is_placed` starts `False`. -/
structure RobotState where
  x : Option Int
  y : Option Int
  facing : Option String
  is_placed : Bool
deriving DecidableEq

/-- Function `create_initial_state()` from `toy_robot.py`. -/
def create_initial_state : RobotState :=
  { x := none, y := none, facing := none, is_placed := false }

/-- Python whitespace characters recognised by `str.strip` / `str.split`
and `int` (ASCII subset). -/
def pyIsSpace (c : Char) : Bool :=
  c = ' ' || c = '\t' || c = '\n' || c = '\r' || c = '\x0b' || c = '\x0c'

/-- Python `str.strip()`: drop leading and trailing whitespace. -/
def pyStrip (s : String) : String :=
  String.mk (((s.data.dropWhile pyIsSpace).reverse.dropWhile pyIsSpace).reverse)

/-- Helper for `pySplitWs`: accumulate the current word (reversed) while
scanning the characters. -/
def splitWsAux : List Char → List Char → List String
  | [], acc => if acc.isEmpty then [] else [String.mk acc.reverse]
  | c :: cs, acc =>
    if pyIsSpace c then
      if acc.isEmpty then splitWsAux cs []
      else String.mk acc.reverse :: splitWsAux cs []
    else splitWsAux cs (c :: acc)

/-- Python `str.split()` with no argument: split on whitespace runs,
discarding empty pieces. -/
def pySplitWs (s : String) : List String :=
  splitWsAux s.data []

/-- Helper for `pySplitOnComma`. -/
def splitCommaAux : List Char → List Char → List String
  | [], acc => [String.mk acc.reverse]
  | c :: cs, acc =>
    if c = ',' then String.mk acc.reverse :: splitCommaAux cs []
    else splitCommaAux cs (c :: acc)

/-- Python `str.split(",")`: split at every comma, keeping empty pieces. -/
def pySplitOnComma (s : String) : List String :=
  splitCommaAux s.data []

/-- Python `str.upper()` (ASCII letters). -/
def pyUpper (s : String) : String :=
  String.mk (s.data.map Char.toUpper)

/-- Numeric value of an ASCII digit. -/
def digitVal (c : Char) : Nat := c.toNat - 48

/-- Helper for `pyDigits`: after the first digit, Python `int` accepts
further digits with single underscores strictly between digits. -/
def pyDigitsAux : Nat → List Char → Option Nat
  | acc, [] => some acc
  | acc, '_' :: c :: cs =>
    if c.isDigit then pyDigitsAux (acc * 10 + digitVal c) cs else none
  | _, ['_'] => none
  | acc, c :: cs =>
    if c.isDigit then pyDigitsAux (acc * 10 + digitVal c) cs else none

/-- Digit-string parsing of Python `int`: non-empty, starts with a digit,
single underscores allowed between digits. -/
def pyDigits : List Char → Option Nat
  | [] => none
  | c :: cs => if c.isDigit then pyDigitsAux (digitVal c) cs else none

/-- Python `int(s)` on a string: strip whitespace, optional sign, digits;
`none` models the `ValueError` that `process_line` catches. -/
def pyInt? (s : String) : Option Int :=
  match (pyStrip s).data with
  | '+' :: cs => (pyDigits cs).map (fun n => (n : Int))
  | '-' :: cs => (pyDigits cs).map (fun n => -(n : Int))
  | cs => (pyDigits cs).map (fun n => (n : Int))

/-- Function `is_valid_position(x, y)` from `toy_robot.py`:
`0 <= x < TABLE_WIDTH and 0 <= y < TABLE_HEIGHT`. -/
def is_valid_position (x y : Int) : Bool :=
  decide (0 ≤ x ∧ x < TABLE_WIDTH) && decide (0 ≤ y ∧ y < TABLE_HEIGHT)

/-- Transition `place(state, x, y, facing)` from `toy_robot.py`: upper-case the
facing, reject unknown directions and invalid positions, otherwise set
all four fields. -/
def place (state : RobotState) (x y : Int) (facing : String) : RobotState :=
  if pyUpper facing ∈ DIRECTIONS then
    if is_valid_position x y then
      { state with x := some x, y := some y, facing := some (pyUpper facing),
                   is_placed := true }
    else state
  else state

/-- The `(dx, dy)` computed by the `if/elif` chain in `move`; `(0, 0)` when
the facing is none of the four names (including Python `None`). -/
def displacement (f : Option String) : Int × Int :=
  if f = some "NORTH" then (0, 1)
  else if f = some "SOUTH" then (0, -1)
  else if f = some "EAST" then (1, 0)
  else if f = some "WEST" then (-1, 0)
  else (0, 0)

/-- Transition `move(state)` from `toy_robot.py`.  The `none` result models the
`TypeError` Python would raise adding an int to `None` when `is_placed`
is true but `x`/`y` are unset; unreachable from the initial state. -/
def move (state : RobotState) : Option RobotState :=
  if state.is_placed = false then some state
  else
    match state.x, state.y with
    | some x, some y =>
      if is_valid_position (x + (displacement state.facing).1)
          (y + (displacement state.facing).2) then
        some { state with x := some (x + (displacement state.facing).1),
                          y := some (y + (displacement state.facing).2) }
      else some state
    | _, _ => none

/-- Python `list.index` on a list of strings, as an `Option`:
`none` models the `ValueError` raised when the element is absent. -/
def pyIndex? (a : String) : List String → Option Nat
  | [] => none
  | b :: bs => if b = a then some 0 else (pyIndex? a bs).map (· + 1)

/-- Transition `rotate_left(state)` from `toy_robot.py`:
`DIRECTIONS[(idx - 1) % len(DIRECTIONS)]` (Python `%` is `Int.emod`,
non-negative here).  `none` models the `ValueError` from
`DIRECTIONS.index` on a facing not in the list; unreachable. -/
def rotate_left (state : RobotState) : Option RobotState :=
  if state.is_placed = false then some state
  else
    match state.facing with
    | some f =>
      match pyIndex? f DIRECTIONS with
      | some idx =>
        some { state with
               facing := some (DIRECTIONS.getD (((idx - 1 : Int) % (DIRECTIONS.length : Int)).toNat) "") }
      | none => none
    | none => none

/-- Transition `rotate_right(state)` from `toy_robot.py`:
`DIRECTIONS[(idx + 1) % len(DIRECTIONS)]`. -/
def rotate_right (state : RobotState) : Option RobotState :=
  if state.is_placed = false then some state
  else
    match state.facing with
    | some f =>
      match pyIndex? f DIRECTIONS with
      | some idx =>
        some { state with
               facing := some (DIRECTIONS.getD (((idx + 1 : Int) % (DIRECTIONS.length : Int)).toNat) "") }
      | none => none
    | none => none

/-- Formatting of an `int`-or-`None` field inside the f-string of
`report` (Python `str`). -/
def fmtInt? : Option Int → String
  | some n => Int.repr n
  | none => "None"

/-- Formatting of the facing field inside the f-string of `report`. -/
def fmtFacing? : Option String → String
  | some f => f
  | none => "None"

/-- Transition `report(state)` from `toy_robot.py`: `None` when unplaced, otherwise
the f-string `'x,y,facing'`. -/
def report (state : RobotState) : Option String :=
  if state.is_placed = false then none
  else some (fmtInt? state.x ++ "," ++ fmtInt? state.y ++ "," ++ fmtFacing? state.facing)

/-- The `PLACE` block of `process_line` (`toy_robot.py` lines 133-145),
applied to the words after the command keyword: require a second word,
split it at commas into exactly three fields, parse the two coordinates
as ints, and delegate to `place`; on any parse failure, ignore the line. -/
def placeDispatch (state : RobotState) (rest : List String) : Option (RobotState × Option String) :=
  match rest with
  | [] => some (state, none)
  | args_part :: _ =>
    match pySplitOnComma args_part with
    | [x_str, y_str, facing] =>
      match pyInt? x_str, pyInt? y_str with
      | some x, some y => some (place state x y facing, none)
      | _, _ => some (state, none)
    | _ => some (state, none)

/-- The non-`PLACE` part of `process_line` (`toy_robot.py` lines 147-160),
applied to the upper-cased command keyword: ignore everything until the
robot is placed, then dispatch MOVE / LEFT / RIGHT / REPORT, ignoring
unknown commands. -/
def dispatchCmd (state : RobotState) (cmd : String) : Option (RobotState × Option String) :=
  if state.is_placed = false then some (state, none)
  else if cmd = "MOVE" then (move state).map (fun s => (s, none))
  else if cmd = "LEFT" then (rotate_left state).map (fun s => (s, none))
  else if cmd = "RIGHT" then (rotate_right state).map (fun s => (s, none))
  else if cmd = "REPORT" then some (state, report state)
  else some (state, none)

/-- Interpreter `process_line(state, line)` from `toy_robot.py`, returning the new
state together with the REPORT output (if any).  The outer `none` models
an uncaught exception; the only such branches are the unreachable ones of
`move` / `rotate_left` / `rotate_right` and the impossible empty word
list of a non-empty stripped line. -/
def process_line (state : RobotState) (raw : String) : Option (RobotState × Option String) :=
  if pyStrip raw = "" then some (state, none)
  else
    match pySplitWs (pyStrip raw) with
    | [] => none
    | first :: rest =>
      if pyUpper first = "PLACE" then placeDispatch state rest
      else dispatchCmd state (pyUpper first)

/-- The loop of `run_stream`: process the lines in order, collecting each
line's output. -/
def processLines : RobotState → List String → Option (RobotState × List (Option String))
  | s, [] => some (s, [])
  | s, l :: ls =>
    match process_line s l with
    | none => none
    | some (s', out) =>
      match processLines s' ls with
      | none => none
      | some (s'', outs) => some (s'', out :: outs)

/-- One abstract operation on the robot state: a direct call to one of the
five transition functions, or the processing of a raw input line. -/
inductive Op where
  | oplace (x y : Int) (facing : String)
  | omove
  | oleft
  | oright
  | oreport
  | oline (l : String)

/-- Apply one operation; `report` reads the state without changing it. -/
def applyOp (s : RobotState) : Op → Option RobotState
  | .oplace x y f => some (place s x y f)
  | .omove => move s
  | .oleft => rotate_left s
  | .oright => rotate_right s
  | .oreport => some s
  | .oline l => (process_line s l).map Prod.fst

/-- Run a list of operations from a state. -/
def runOps : RobotState → List Op → Option RobotState
  | s, [] => some s
  | s, op :: ops =>
    match applyOp s op with
    | none => none
    | some s' => runOps s' ops

/-- Well-formedness invariant of reachable states: when placed, the
coordinates are set and within bounds and the facing is one of the four
direction names. -/
def Inv (s : RobotState) : Prop :=
  s.is_placed = true →
    ∃ x y f, s.x = some x ∧ s.y = some y ∧ s.facing = some f ∧
      f ∈ DIRECTIONS ∧ is_valid_position x y = true

/-- Counter-clockwise successor of a facing, transcribed from the spec's
cyclic order NORTH→WEST→SOUTH→EAST→NORTH (used to compare `rotate_left`
against the specified order). -/
def ccwNext : String → String
  | "NORTH" => "WEST"
  | "WEST" => "SOUTH"
  | "SOUTH" => "EAST"
  | "EAST" => "NORTH"
  | f => f

/-- Clockwise successor of a facing, transcribed from the spec's reverse
cyclic order (used to compare `rotate_right` against the specified order). -/
def cwNext : String → String
  | "NORTH" => "EAST"
  | "EAST" => "SOUTH"
  | "SOUTH" => "WEST"
  | "WEST" => "NORTH"
  | f => f

/-- Indexing `DIRECTIONS` at any integer taken modulo its length stays
inside the list. -/
theorem getD_mod4_mem (i : Int) :
    DIRECTIONS.getD ((i % (DIRECTIONS.length : Int)).toNat) "" ∈ DIRECTIONS := by
  have hlen : ((DIRECTIONS.length : Int)) = 4 := by rfl
  rw [hlen]
  have h1 : 0 ≤ i % 4 := Int.emod_nonneg i (by norm_num)
  have h2 : i % 4 < 4 := Int.emod_lt_of_pos i (by norm_num)
  have h4 : (i % 4).toNat = 0 ∨ (i % 4).toNat = 1 ∨ (i % 4).toNat = 2 ∨ (i % 4).toNat = 3 := by
    omega
  rcases h4 with h | h | h | h <;> rw [h] <;> decide

/-- On an unplaced state, `move` is the identity. -/
theorem move_unplaced {s : RobotState} (h : s.is_placed = false) : move s = some s := by
  unfold move
  rw [h]
  rfl

/-- On an unplaced state, `rotate_left` is the identity. -/
theorem rotate_left_unplaced {s : RobotState} (h : s.is_placed = false) :
    rotate_left s = some s := by
  unfold rotate_left
  rw [h]
  rfl

/-- On an unplaced state, `rotate_right` is the identity. -/
theorem rotate_right_unplaced {s : RobotState} (h : s.is_placed = false) :
    rotate_right s = some s := by
  unfold rotate_right
  rw [h]
  rfl

/-- On a placed state with a valid facing, `rotate_left` succeeds and
replaces the facing by its counter-clockwise successor. -/
theorem rotate_left_eq {s : RobotState} {f : String} (hp : s.is_placed = true)
    (hf : s.facing = some f) (hd : f ∈ DIRECTIONS) :
    rotate_left s = some { s with facing := some (ccwNext f) } := by
  obtain ⟨x, y, fc, p⟩ := s
  have hfc : fc = some f := hf
  have hpp : p = true := hp
  subst hfc hpp
  fin_cases hd <;> rfl

/-- On a placed state with a valid facing, `rotate_right` succeeds and
replaces the facing by its clockwise successor. -/
theorem rotate_right_eq {s : RobotState} {f : String} (hp : s.is_placed = true)
    (hf : s.facing = some f) (hd : f ∈ DIRECTIONS) :
    rotate_right s = some { s with facing := some (cwNext f) } := by
  obtain ⟨x, y, fc, p⟩ := s
  have hfc : fc = some f := hf
  have hpp : p = true := hp
  subst hfc hpp
  fin_cases hd <;> rfl

/-- The counter-clockwise successor of a valid facing is a valid facing. -/
theorem ccwNext_mem {f : String} (h : f ∈ DIRECTIONS) : ccwNext f ∈ DIRECTIONS := by
  fin_cases h <;> decide

/-- The clockwise successor of a valid facing is a valid facing. -/
theorem cwNext_mem {f : String} (h : f ∈ DIRECTIONS) : cwNext f ∈ DIRECTIONS := by
  fin_cases h <;> decide

/-- The functions `cwNext` and `ccwNext` are inverse on valid facings. -/
theorem cwNext_ccwNext {f : String} (h : f ∈ DIRECTIONS) : cwNext (ccwNext f) = f := by
  fin_cases h <;> decide

/-- The functions `ccwNext` and `cwNext` are inverse on valid facings. -/
theorem ccwNext_cwNext {f : String} (h : f ∈ DIRECTIONS) : ccwNext (cwNext f) = f := by
  fin_cases h <;> decide

/-- A successful `place` never changes `is_placed` from true to false. -/
theorem place_placed {s : RobotState} {x y : Int} {f : String} (h : s.is_placed = true) :
    (place s x y f).is_placed = true := by
  unfold place
  split
  · split
    · rfl
    · exact h
  · exact h

/-- A non-raising `move` leaves `is_placed` exactly as it was. -/
theorem move_placed {s s' : RobotState} (h : move s = some s') :
    s'.is_placed = s.is_placed := by
  unfold move at h
  split at h
  · injection h with h
    subst h
    rfl
  · split at h
    · split at h
      · injection h with h
        subst h
        rfl
      · injection h with h
        subst h
        rfl
    · exact Option.noConfusion h

/-- A non-raising `rotate_left` leaves `is_placed` exactly as it was. -/
theorem rotate_left_placed {s s' : RobotState} (h : rotate_left s = some s') :
    s'.is_placed = s.is_placed := by
  unfold rotate_left at h
  split at h
  · injection h with h
    subst h
    rfl
  · split at h
    · split at h
      · injection h with h
        subst h
        rfl
      · exact Option.noConfusion h
    · exact Option.noConfusion h

/-- A non-raising `rotate_right` leaves `is_placed` exactly as it was. -/
theorem rotate_right_placed {s s' : RobotState} (h : rotate_right s = some s') :
    s'.is_placed = s.is_placed := by
  unfold rotate_right at h
  split at h
  · injection h with h
    subst h
    rfl
  · split at h
    · split at h
      · injection h with h
        subst h
        rfl
      · exact Option.noConfusion h
    · exact Option.noConfusion h

/-- `place` preserves the reachable-state invariant. -/
theorem place_inv {s : RobotState} {x y : Int} {f : String} (hi : Inv s) :
    Inv (place s x y f) := by
  unfold place
  split
  · split
    · intro _
      exact ⟨x, y, pyUpper f, rfl, rfl, rfl, by assumption, by assumption⟩
    · exact hi
  · exact hi

/-- `move` preserves the reachable-state invariant. -/
theorem move_inv {s s' : RobotState} (hi : Inv s) (hm : move s = some s') : Inv s' := by
  unfold move at hm
  split at hm
  · injection hm with hm
    subst hm
    exact hi
  · rename_i hplaced
    have hsp : s.is_placed = true := by
      cases hb : s.is_placed
      · exact absurd hb hplaced
      · rfl
    split at hm
    · rename_i x y hx hy
      split at hm
      · rename_i hvalid
        injection hm with hm
        subst hm
        intro _
        obtain ⟨x0, y0, f0, hx0, hy0, hf0, hdm, hv⟩ := hi hsp
        exact ⟨_, _, f0, rfl, rfl, hf0, hdm, hvalid⟩
      · injection hm with hm
        subst hm
        exact hi
    · exact Option.noConfusion hm

/-- `rotate_left` preserves the reachable-state invariant. -/
theorem rotate_left_inv {s s' : RobotState} (hi : Inv s) (hm : rotate_left s = some s') :
    Inv s' := by
  unfold rotate_left at hm
  split at hm
  · injection hm with hm
    subst hm
    exact hi
  · rename_i hplaced
    have hsp : s.is_placed = true := by
      cases hb : s.is_placed
      · exact absurd hb hplaced
      · rfl
    split at hm
    · rename_i f hf
      split at hm
      · rename_i idx hidx
        injection hm with hm
        subst hm
        intro _
        obtain ⟨x0, y0, f0, hx0, hy0, hf0, hdm, hv⟩ := hi hsp
        exact ⟨x0, y0, _, hx0, hy0, rfl, getD_mod4_mem (idx - 1), hv⟩
      · exact Option.noConfusion hm
    · exact Option.noConfusion hm

/-- `rotate_right` preserves the reachable-state invariant. -/
theorem rotate_right_inv {s s' : RobotState} (hi : Inv s) (hm : rotate_right s = some s') :
    Inv s' := by
  unfold rotate_right at hm
  split at hm
  · injection hm with hm
    subst hm
    exact hi
  · rename_i hplaced
    have hsp : s.is_placed = true := by
      cases hb : s.is_placed
      · exact absurd hb hplaced
      · rfl
    split at hm
    · rename_i f hf
      split at hm
      · rename_i idx hidx
        injection hm with hm
        subst hm
        intro _
        obtain ⟨x0, y0, f0, hx0, hy0, hf0, hdm, hv⟩ := hi hsp
        exact ⟨x0, y0, _, hx0, hy0, rfl, getD_mod4_mem (idx + 1), hv⟩
      · exact Option.noConfusion hm
    · exact Option.noConfusion hm

/-- The empty string splits into no words. -/
theorem pySplitWs_empty : pySplitWs "" = [] := rfl

/-- A line whose stripped form splits into at least one word is not blank. -/
theorem pyStrip_ne_of_split {line w : String} {rest : List String}
    (hsplit : pySplitWs (pyStrip line) = w :: rest) : pyStrip line ≠ "" := by
  intro h0
  rw [h0, pySplitWs_empty] at hsplit
  exact List.noConfusion hsplit

/-- Characterization of `process_line` on a line whose first word
upper-cases to `PLACE`: the remaining words are handed to the `PLACE`
block regardless of placement state. -/
theorem process_line_place_eq {s : RobotState} {line w : String} {rest : List String}
    (hsplit : pySplitWs (pyStrip line) = w :: rest) (hcmd : pyUpper w = "PLACE") :
    process_line s line = placeDispatch s rest := by
  unfold process_line
  rw [if_neg (pyStrip_ne_of_split hsplit)]
  conv_lhs => rw [hsplit]
  simp only [hcmd, if_pos rfl, if_true]

/-- Characterization of `process_line` on a line whose first word does not
upper-case to `PLACE`: the upper-cased first word alone is dispatched. -/
theorem process_line_other_eq {s : RobotState} {line w : String} {rest : List String}
    (hsplit : pySplitWs (pyStrip line) = w :: rest) (hcmd : pyUpper w ≠ "PLACE") :
    process_line s line = dispatchCmd s (pyUpper w) := by
  unfold process_line
  rw [if_neg (pyStrip_ne_of_split hsplit)]
  conv_lhs => rw [hsplit]
  simp only [if_neg hcmd]

/-- Every successful `placeDispatch` result is a no-op or a call to
`place`, with no output. -/
theorem placeDispatch_cases {s s' : RobotState} {rest : List String} {o : Option String}
    (h : placeDispatch s rest = some (s', o)) :
    (s' = s ∧ o = none) ∨ (∃ x y f, s' = place s x y f ∧ o = none) := by
  unfold placeDispatch at h
  split at h
  · simp only [Option.some.injEq, Prod.mk.injEq] at h
    exact Or.inl ⟨h.1.symm, h.2.symm⟩
  · split at h
    · split at h
      · simp only [Option.some.injEq, Prod.mk.injEq] at h
        exact Or.inr ⟨_, _, _, h.1.symm, h.2.symm⟩
      · simp only [Option.some.injEq, Prod.mk.injEq] at h
        exact Or.inl ⟨h.1.symm, h.2.symm⟩
    · simp only [Option.some.injEq, Prod.mk.injEq] at h
      exact Or.inl ⟨h.1.symm, h.2.symm⟩

/-- Every successful `dispatchCmd` result is a no-op, a call to `move`,
`rotate_left` or `rotate_right` with no output, or a REPORT on a placed
state with unchanged state. -/
theorem dispatchCmd_cases {s s' : RobotState} {cmd : String} {o : Option String}
    (h : dispatchCmd s cmd = some (s', o)) :
    (s' = s ∧ o = none) ∨
    (move s = some s' ∧ o = none) ∨
    (rotate_left s = some s' ∧ o = none) ∨
    (rotate_right s = some s' ∧ o = none) ∨
    (s' = s ∧ s.is_placed = true ∧ o = report s) := by
  unfold dispatchCmd at h
  split at h
  · simp only [Option.some.injEq, Prod.mk.injEq] at h
    exact Or.inl ⟨h.1.symm, h.2.symm⟩
  · rename_i hgate
    have hsp : s.is_placed = true := by
      cases hb : s.is_placed
      · exact absurd hb hgate
      · rfl
    split at h
    · rw [Option.map_eq_some'] at h
      obtain ⟨a, ha, hb⟩ := h
      simp only [Prod.mk.injEq] at hb
      obtain ⟨h1, h2⟩ := hb
      subst h1
      exact Or.inr (Or.inl ⟨ha, h2.symm⟩)
    · split at h
      · rw [Option.map_eq_some'] at h
        obtain ⟨a, ha, hb⟩ := h
        simp only [Prod.mk.injEq] at hb
        obtain ⟨h1, h2⟩ := hb
        subst h1
        exact Or.inr (Or.inr (Or.inl ⟨ha, h2.symm⟩))
      · split at h
        · rw [Option.map_eq_some'] at h
          obtain ⟨a, ha, hb⟩ := h
          simp only [Prod.mk.injEq] at hb
          obtain ⟨h1, h2⟩ := hb
          subst h1
          exact Or.inr (Or.inr (Or.inr (Or.inl ⟨ha, h2.symm⟩)))
        · split at h
          · simp only [Option.some.injEq, Prod.mk.injEq] at h
            exact Or.inr (Or.inr (Or.inr (Or.inr ⟨h.1.symm, hsp, h.2.symm⟩)))
          · simp only [Option.some.injEq, Prod.mk.injEq] at h
            exact Or.inl ⟨h.1.symm, h.2.symm⟩

/-- Every successful `process_line` result arises from one of: a no-op, a
call to `place`, `move`, `rotate_left` or `rotate_right` with no output,
or a REPORT on a placed state with unchanged state. -/
theorem process_line_cases {s s' : RobotState} {l : String} {o : Option String}
    (h : process_line s l = some (s', o)) :
    (s' = s ∧ o = none) ∨
    (∃ x y f, s' = place s x y f ∧ o = none) ∨
    (move s = some s' ∧ o = none) ∨
    (rotate_left s = some s' ∧ o = none) ∨
    (rotate_right s = some s' ∧ o = none) ∨
    (s' = s ∧ s.is_placed = true ∧ o = report s) := by
  unfold process_line at h
  split at h
  · simp only [Option.some.injEq, Prod.mk.injEq] at h
    exact Or.inl ⟨h.1.symm, h.2.symm⟩
  · split at h
    · exact Option.noConfusion h
    · split at h
      · rcases placeDispatch_cases h with h1 | h1
        · exact Or.inl h1
        · exact Or.inr (Or.inl h1)
      · rcases dispatchCmd_cases h with h1 | h1 | h1 | h1 | h1
        · exact Or.inl h1
        · exact Or.inr (Or.inr (Or.inl h1))
        · exact Or.inr (Or.inr (Or.inr (Or.inl h1)))
        · exact Or.inr (Or.inr (Or.inr (Or.inr (Or.inl h1))))
        · exact Or.inr (Or.inr (Or.inr (Or.inr (Or.inr h1))))

/-- `process_line` preserves the reachable-state invariant. -/
theorem process_line_inv {s s' : RobotState} {l : String} {o : Option String}
    (hi : Inv s) (h : process_line s l = some (s', o)) : Inv s' := by
  rcases process_line_cases h with ⟨rfl, -⟩ | ⟨x, y, f, rfl, -⟩ | ⟨hm, -⟩ | ⟨hm, -⟩ | ⟨hm, -⟩ |
    ⟨rfl, -, -⟩
  · exact hi
  · exact place_inv hi
  · exact move_inv hi hm
  · exact rotate_left_inv hi hm
  · exact rotate_right_inv hi hm
  · exact hi

/-- `process_line` never unsets `is_placed`. -/
theorem process_line_placed {s s' : RobotState} {l : String} {o : Option String}
    (h : process_line s l = some (s', o)) (hp : s.is_placed = true) : s'.is_placed = true := by
  rcases process_line_cases h with ⟨rfl, -⟩ | ⟨x, y, f, rfl, -⟩ | ⟨hm, -⟩ | ⟨hm, -⟩ | ⟨hm, -⟩ |
    ⟨rfl, -, -⟩
  · exact hp
  · exact place_placed hp
  · exact (move_placed hm).trans hp
  · exact (rotate_left_placed hm).trans hp
  · exact (rotate_right_placed hm).trans hp
  · exact hp

/-- A line that leaves the robot unplaced produces no output. -/
theorem process_line_out_none {s s' : RobotState} {l : String} {o : Option String}
    (h : process_line s l = some (s', o)) (hf : s'.is_placed = false) : o = none := by
  rcases process_line_cases h with ⟨-, ho⟩ | ⟨x, y, f, -, ho⟩ | ⟨-, ho⟩ | ⟨-, ho⟩ | ⟨-, ho⟩ |
    ⟨rfl, hsp, -⟩
  · exact ho
  · exact ho
  · exact ho
  · exact ho
  · exact ho
  · rw [hsp] at hf
    exact Bool.noConfusion hf

/-- `applyOp` preserves the reachable-state invariant. -/
theorem applyOp_inv {s s' : RobotState} {op : Op} (hi : Inv s) (h : applyOp s op = some s') :
    Inv s' := by
  cases op with
  | oplace x y f =>
    injection h with h
    subst h
    exact place_inv hi
  | omove => exact move_inv hi h
  | oleft => exact rotate_left_inv hi h
  | oright => exact rotate_right_inv hi h
  | oreport =>
    injection h with h
    subst h
    exact hi
  | oline l =>
    rw [applyOp, Option.map_eq_some'] at h
    obtain ⟨⟨s1, o⟩, h1, h2⟩ := h
    subst h2
    exact process_line_inv hi h1

/-- `applyOp` never unsets `is_placed`. -/
theorem applyOp_placed {s s' : RobotState} {op : Op} (h : applyOp s op = some s')
    (hp : s.is_placed = true) : s'.is_placed = true := by
  cases op with
  | oplace x y f =>
    injection h with h
    subst h
    exact place_placed hp
  | omove => exact (move_placed h).trans hp
  | oleft => exact (rotate_left_placed h).trans hp
  | oright => exact (rotate_right_placed h).trans hp
  | oreport =>
    injection h with h
    subst h
    exact hp
  | oline l =>
    rw [applyOp, Option.map_eq_some'] at h
    obtain ⟨⟨s1, o⟩, h1, h2⟩ := h
    subst h2
    exact process_line_placed h1 hp

/-- `runOps` preserves the reachable-state invariant. -/
theorem runOps_inv : ∀ {ops : List Op} {s s' : RobotState},
    Inv s → runOps s ops = some s' → Inv s'
  | [], s, s', hi, h => by
    injection h with h
    subst h
    exact hi
  | op :: ops, s, s', hi, h => by
    unfold runOps at h
    split at h
    · exact Option.noConfusion h
    · rename_i s1 h1
      exact runOps_inv (applyOp_inv hi h1) h

/-- `runOps` never unsets `is_placed`. -/
theorem runOps_placed : ∀ {ops : List Op} {s s' : RobotState},
    runOps s ops = some s' → s.is_placed = true → s'.is_placed = true
  | [], s, s', h, hp => by
    injection h with h
    subst h
    exact hp
  | op :: ops, s, s', h, hp => by
    unfold runOps at h
    split at h
    · exact Option.noConfusion h
    · rename_i s1 h1
      exact runOps_placed h (applyOp_placed h1 hp)

/-- `processLines` never unsets `is_placed`. -/
theorem processLines_placed : ∀ {lines : List String} {s s' : RobotState}
    {outs : List (Option String)}, processLines s lines = some (s', outs) →
    s.is_placed = true → s'.is_placed = true
  | [], s, s', outs, h, hp => by
    simp only [processLines, Option.some.injEq, Prod.mk.injEq] at h
    rw [← h.1]
    exact hp
  | l :: ls, s, s', outs, h, hp => by
    unfold processLines at h
    split at h
    · exact Option.noConfusion h
    · rename_i s1 o1 h1
      split at h
      · exact Option.noConfusion h
      · rename_i s2 outs2 hp2
        simp only [Option.some.injEq, Prod.mk.injEq] at h
        rw [← h.1]
        exact processLines_placed hp2 (process_line_placed h1 hp)

/-- When a whole run ends unplaced, every line's output was `none`. -/
theorem processLines_out_none : ∀ {lines : List String} {s s' : RobotState}
    {outs : List (Option String)}, processLines s lines = some (s', outs) →
    s'.is_placed = false → ∀ o ∈ outs, o = none
  | [], s, s', outs, h, hf => by
    simp only [processLines, Option.some.injEq, Prod.mk.injEq] at h
    rw [← h.2]
    intro o ho
    exact absurd ho (List.not_mem_nil o)
  | l :: ls, s, s', outs, h, hf => by
    unfold processLines at h
    split at h
    · exact Option.noConfusion h
    · rename_i s1 o1 h1
      split at h
      · exact Option.noConfusion h
      · rename_i s2 outs2 hp2
        simp only [Option.some.injEq, Prod.mk.injEq] at h
        obtain ⟨hs, houts⟩ := h
        subst hs
        have hs1 : s1.is_placed = false := by
          cases hb : s1.is_placed
          · rfl
          · rw [processLines_placed hp2 hb] at hf
            exact Bool.noConfusion hf
        intro o ho
        rw [← houts] at ho
        rcases List.mem_cons.mp ho with rfl | ho2
        · exact process_line_out_none h1 hs1
        · exact processLines_out_none hp2 hf o ho2

/-- On a placed state with coordinates set, `move` adds the displacement of
the current facing when the target is valid and otherwise does nothing. -/
theorem move_eq {s : RobotState} {x y dx dy : Int} (hp : s.is_placed = true)
    (hx : s.x = some x) (hy : s.y = some y) (hd : displacement s.facing = (dx, dy)) :
    move s =
      if is_valid_position (x + dx) (y + dy) then
        some { s with x := some (x + dx), y := some (y + dy) }
      else some s := by
  obtain ⟨xf, yf, fc, p⟩ := s
  have h1 : xf = some x := hx
  have h2 : yf = some y := hy
  have h3 : p = true := hp
  subst h1 h2 h3
  have h4 : displacement fc = (dx, dy) := hd
  unfold move
  dsimp only
  rw [h4]
  rfl

/-- The initial state satisfies the reachable-state invariant. -/
theorem create_initial_state_inv : Inv create_initial_state :=
  fun hc => absurd hc (by decide)

/-- C1: in every state reachable from the initial unplaced state by any
sequence of operations (place, move, rotate left/right, report, or
processed input lines), if the robot is placed then its coordinates are
set and satisfy `0 ≤ x < 5` and `0 ≤ y < 5`; no transition ever leaves a
partially updated state behind. -/
theorem c1_bounds_invariant (ops : List Op) (s : RobotState)
    (h : runOps create_initial_state ops = some s) (hp : s.is_placed = true) :
    ∃ x y : Int, s.x = some x ∧ s.y = some y ∧
      0 ≤ x ∧ x < TABLE_WIDTH ∧ 0 ≤ y ∧ y < TABLE_HEIGHT := by
  obtain ⟨x, y, f, hx, hy, -, -, hv⟩ := runOps_inv create_initial_state_inv h hp
  unfold is_valid_position at hv
  simp only [Bool.and_eq_true, decide_eq_true_eq] at hv
  exact ⟨x, y, hx, hy, hv.1.1, hv.1.2, hv.2.1, hv.2.2⟩

/-- Witness for C1 at the concrete run PLACE(1,2,NORTH); MOVE; "RIGHT";
"MOVE", which ends in the placed state (2,3,EAST). -/
theorem c1_bounds_invariant_witness :
    ∃ x y : Int, (RobotState.mk (some 2) (some 3) (some "EAST") true).x = some x ∧
      (RobotState.mk (some 2) (some 3) (some "EAST") true).y = some y ∧
      0 ≤ x ∧ x < TABLE_WIDTH ∧ 0 ≤ y ∧ y < TABLE_HEIGHT :=
  c1_bounds_invariant [Op.oplace 1 2 "NORTH", Op.omove, Op.oline "RIGHT", Op.oline "MOVE"]
    (RobotState.mk (some 2) (some 3) (some "EAST") true) (by decide) rfl

/-- C2: on an unplaced state `move` does nothing; on a placed state with
coordinates set it either adds exactly the unit vector of the current
facing (NORTH `y+1`, SOUTH `y-1`, EAST `x+1`, WEST `x-1`), leaving facing
and placedness unchanged, or — precisely when the target is out of
bounds — leaves the state entirely unchanged; started in bounds, it never
produces a position out of bounds. -/
theorem c2_move_spec (s : RobotState) :
    (s.is_placed = false → move s = some s) ∧
    (∀ x y dx dy : Int, s.is_placed = true → s.x = some x → s.y = some y →
      displacement s.facing = (dx, dy) →
      (is_valid_position (x + dx) (y + dy) = true →
        move s = some { s with x := some (x + dx), y := some (y + dy) }) ∧
      (is_valid_position (x + dx) (y + dy) = false → move s = some s)) ∧
    (∀ x y : Int, ∀ s' : RobotState, s.x = some x → s.y = some y →
      is_valid_position x y = true → move s = some s' →
      ∃ x' y' : Int, s'.x = some x' ∧ s'.y = some y' ∧ is_valid_position x' y' = true) ∧
    (displacement (some "NORTH") = (0, 1) ∧ displacement (some "SOUTH") = (0, -1) ∧
      displacement (some "EAST") = (1, 0) ∧ displacement (some "WEST") = (-1, 0)) := by
  refine ⟨fun h => move_unplaced h, ?_, ?_, by decide, by decide, by decide, by decide⟩
  · intro x y dx dy hp hx hy hd
    rw [move_eq hp hx hy hd]
    constructor
    · intro hv
      rw [if_pos hv]
    · intro hv
      have hv2 : ¬ (is_valid_position (x + dx) (y + dy) = true) := by
        rw [hv]
        exact Bool.false_ne_true
      rw [if_neg hv2]
  · intro x y s' hx hy hv hm
    cases hp : s.is_placed
    · rw [move_unplaced hp] at hm
      injection hm with hm
      subst hm
      exact ⟨x, y, hx, hy, hv⟩
    · have hd : displacement s.facing = ((displacement s.facing).1, (displacement s.facing).2) :=
        rfl
      rw [move_eq hp hx hy hd] at hm
      by_cases hv2 :
        is_valid_position (x + (displacement s.facing).1) (y + (displacement s.facing).2) = true
      · rw [if_pos hv2] at hm
        injection hm with hm
        subst hm
        exact ⟨_, _, rfl, rfl, hv2⟩
      · rw [if_neg hv2] at hm
        injection hm with hm
        subst hm
        exact ⟨x, y, hx, hy, hv⟩

/-- Witness for C2 at the placed state (0,4,NORTH): the move would land on
(0,5), out of bounds, so the state is unchanged. -/
theorem c2_move_spec_witness :
    move (RobotState.mk (some 0) (some 4) (some "NORTH") true) =
      some (RobotState.mk (some 0) (some 4) (some "NORTH") true) :=
  ((c2_move_spec (RobotState.mk (some 0) (some 4) (some "NORTH") true)).2.1 0 4 0 1 rfl rfl rfl
    (by decide)).2 (by decide)

/-- C3: for every in-bounds `(x, y)` and every facing string whose
upper-casing is a valid direction name, `place` succeeds (the robot
becomes placed) and a subsequent `report` returns exactly the string
`"X,Y,FACING"` with the facing upper-cased; `report` returns `None`
whenever the state is unplaced. -/
theorem c3_place_report (s : RobotState) (x y : Int) (f : String) :
    (0 ≤ x → x < TABLE_WIDTH → 0 ≤ y → y < TABLE_HEIGHT → pyUpper f ∈ DIRECTIONS →
      (place s x y f).is_placed = true ∧
      report (place s x y f) = some (Int.repr x ++ "," ++ Int.repr y ++ "," ++ pyUpper f)) ∧
    (s.is_placed = false → report s = none) := by
  constructor
  · intro h1 h2 h3 h4 hmem
    have hv : is_valid_position x y = true := by
      unfold is_valid_position
      simp only [Bool.and_eq_true, decide_eq_true_eq]
      exact ⟨⟨h1, h2⟩, h3, h4⟩
    unfold place
    rw [if_pos hmem, if_pos hv]
    exact ⟨rfl, rfl⟩
  · intro h
    unfold report
    rw [h]
    rfl

/-- Witness for C3: placing at (2,3) with lower-case "north" and
reporting yields the string with upper-cased facing. -/
theorem c3_place_report_witness :
    (place create_initial_state 2 3 "north").is_placed = true ∧
    report (place create_initial_state 2 3 "north") =
      some (Int.repr 2 ++ "," ++ Int.repr 3 ++ "," ++ pyUpper "north") :=
  (c3_place_report create_initial_state 2 3 "north").1 (by decide) (by decide) (by decide)
    (by decide) (by decide)

/-- Reduction of the `PLACE` block when the argument word has exactly
three comma fields. -/
theorem placeDispatch_eq3 {arg x_str y_str fs : String}
    (h : pySplitOnComma arg = [x_str, y_str, fs]) (s : RobotState) (t : List String) :
    placeDispatch s (arg :: t) =
      (match pyInt? x_str, pyInt? y_str with
       | some x, some y => some (place s x y fs, none)
       | _, _ => some (s, none)) := by
  unfold placeDispatch
  dsimp only
  conv_lhs => rw [h]

/-- Reduction of the `PLACE` block when the argument word does not have
exactly three comma fields: the line is ignored. -/
theorem placeDispatch_not3 {arg : String} (h : (pySplitOnComma arg).length ≠ 3)
    (s : RobotState) (t : List String) : placeDispatch s (arg :: t) = some (s, none) := by
  unfold placeDispatch
  dsimp only
  rcases hc : pySplitOnComma arg with - | ⟨a, - | ⟨b, - | ⟨c, - | ⟨d, tt⟩⟩⟩⟩
  · rfl
  · rfl
  · rfl
  · rw [hc] at h
    exact absurd rfl h
  · rfl

/-- A `place` with an unrecognized direction or an out-of-bounds position
leaves the state exactly as it was. -/
theorem place_noop {s : RobotState} {x y : Int} {f : String}
    (h : pyUpper f ∉ DIRECTIONS ∨ is_valid_position x y = false) : place s x y f = s := by
  unfold place
  rcases h with h | h
  · rw [if_neg h]
  · have h2 : ¬ (is_valid_position x y = true) := by
      rw [h]
      exact Bool.false_ne_true
    split <;> rfl

/-- C4: a PLACE line whose argument fails to parse (missing argument word,
a comma field count other than three, a non-integer coordinate), or whose
direction is unrecognized, or whose coordinates are out of bounds, leaves
the state completely unchanged and produces no output (and no error: the
result is `some`). -/
theorem c4_place_silent_rejection (s : RobotState) (line w : String) (rest : List String)
    (hsplit : pySplitWs (pyStrip line) = w :: rest)
    (hcmd : pyUpper w = "PLACE")
    (hfail : rest = [] ∨
      ∃ arg more, rest = arg :: more ∧
        ((pySplitOnComma arg).length ≠ 3 ∨
         ∃ x_str y_str fs, pySplitOnComma arg = [x_str, y_str, fs] ∧
           (pyInt? x_str = none ∨ pyInt? y_str = none ∨
            ∃ x y, pyInt? x_str = some x ∧ pyInt? y_str = some y ∧
              (pyUpper fs ∉ DIRECTIONS ∨ is_valid_position x y = false)))) :
    process_line s line = some (s, none) := by
  rw [process_line_place_eq hsplit hcmd]
  rcases hfail with rfl | ⟨arg, more, rfl, hbad⟩
  · rfl
  · rcases hbad with hlen | ⟨xs, ys, fs, hcomma, hbad2⟩
    · exact placeDispatch_not3 hlen s more
    · rw [placeDispatch_eq3 hcomma s more]
      rcases hbad2 with hx | hy | ⟨x, y, hx, hy, hbad3⟩
      · rw [hx]
      · rcases hx2 : pyInt? xs with - | x
        · rfl
        · rw [hy]
      · rw [hx, hy]
        dsimp only
        rw [place_noop hbad3]

/-- Witness for C4: the malformed line `PLACE 1,2` (two comma fields) is
ignored on the initial state. -/
theorem c4_place_silent_rejection_witness :
    process_line create_initial_state "PLACE 1,2" = some (create_initial_state, none) :=
  c4_place_silent_rejection create_initial_state "PLACE 1,2" "PLACE" ["1,2"] (by decide)
    (by decide) (Or.inr ⟨"1,2", [], rfl, Or.inl (by decide)⟩)

/-- C5: a whole run that ends unplaced (equivalently, by placedness
monotonicity, one whose lines contain no successful PLACE) produces no
REPORT output on any line; while unplaced, any line whose first word is
not PLACE changes nothing and outputs nothing; and a well-formed PLACE
line is attempted regardless of the current placement state. -/
theorem c5_no_place_no_output :
    (∀ lines : List String, ∀ s : RobotState, ∀ outs : List (Option String),
      processLines create_initial_state lines = some (s, outs) → s.is_placed = false →
      ∀ o ∈ outs, o = none) ∧
    (∀ s : RobotState, ∀ line w : String, ∀ rest : List String, s.is_placed = false →
      pySplitWs (pyStrip line) = w :: rest → pyUpper w ≠ "PLACE" →
      process_line s line = some (s, none)) ∧
    (∀ s : RobotState, ∀ line w arg x_str y_str fs : String, ∀ more : List String, ∀ x y : Int,
      pySplitWs (pyStrip line) = w :: arg :: more → pyUpper w = "PLACE" →
      pySplitOnComma arg = [x_str, y_str, fs] → pyInt? x_str = some x → pyInt? y_str = some y →
      process_line s line = some (place s x y fs, none)) := by
  refine ⟨?_, ?_, ?_⟩
  · intro lines s outs h hf
    exact processLines_out_none h hf
  · intro s line w rest hp hsplit hcmd
    rw [process_line_other_eq hsplit hcmd]
    unfold dispatchCmd
    rw [if_pos hp]
  · intro s line w arg xs ys fs more x y hsplit hcmd hcomma hx hy
    rw [process_line_place_eq hsplit hcmd, placeDispatch_eq3 hcomma s more, hx, hy]

/-- Witness for C5: a REPORT line on the unplaced initial state changes
nothing and produces no output. -/
theorem c5_no_place_no_output_witness :
    process_line create_initial_state "REPORT" = some (create_initial_state, none) :=
  c5_no_place_no_output.2.1 create_initial_state "REPORT" "REPORT" [] rfl (by decide) (by decide)

/-- C6: placedness is monotone — once `is_placed` is true, no operation
(`place`, `move`, `rotate_left`, `rotate_right`, a processed line, or any
sequence of operations) ever makes it false again. -/
theorem c6_placed_monotone :
    (∀ s : RobotState, ∀ x y : Int, ∀ f : String, s.is_placed = true →
      (place s x y f).is_placed = true) ∧
    (∀ s s' : RobotState, s.is_placed = true → move s = some s' → s'.is_placed = true) ∧
    (∀ s s' : RobotState, s.is_placed = true → rotate_left s = some s' →
      s'.is_placed = true) ∧
    (∀ s s' : RobotState, s.is_placed = true → rotate_right s = some s' →
      s'.is_placed = true) ∧
    (∀ s s' : RobotState, ∀ l : String, ∀ o : Option String, s.is_placed = true →
      process_line s l = some (s', o) → s'.is_placed = true) ∧
    (∀ s s' : RobotState, ∀ ops : List Op, s.is_placed = true → runOps s ops = some s' →
      s'.is_placed = true) :=
  ⟨fun _ _ _ _ h => place_placed h,
   fun _ _ h hm => (move_placed hm).trans h,
   fun _ _ h hm => (rotate_left_placed hm).trans h,
   fun _ _ h hm => (rotate_right_placed hm).trans h,
   fun _ _ _ _ h hm => process_line_placed hm h,
   fun _ _ _ h hm => runOps_placed hm h⟩

/-- Witness for C6: from a placed state, an out-of-bounds PLACE, a LEFT
line, a move and a report leave the robot placed. -/
theorem c6_placed_monotone_witness :
    (RobotState.mk (some 4) (some 3) (some "SOUTH") true).is_placed = true :=
  c6_placed_monotone.2.2.2.2.2 (RobotState.mk (some 4) (some 4) (some "WEST") true)
    (RobotState.mk (some 4) (some 3) (some "SOUTH") true)
    [Op.oplace 9 9 "NORTH", Op.oline "LEFT", Op.omove, Op.oreport] rfl (by decide)

/-- C7: from every placed state with a valid facing, `rotate_left`
followed by `rotate_right` — and `rotate_right` followed by
`rotate_left` — restores the entire state. -/
theorem c7_rotate_round_trip (s : RobotState) (f : String) (hp : s.is_placed = true)
    (hf : s.facing = some f) (hd : f ∈ DIRECTIONS) :
    (rotate_left s).bind rotate_right = some s ∧
    (rotate_right s).bind rotate_left = some s := by
  obtain ⟨x, y, fc, p⟩ := s
  have h1 : fc = some f := hf
  have h2 : p = true := hp
  subst h1 h2
  fin_cases hd <;> exact ⟨rfl, rfl⟩

/-- Witness for C7 at the placed state (0,0,NORTH). -/
theorem c7_rotate_round_trip_witness :
    (rotate_left (RobotState.mk (some 0) (some 0) (some "NORTH") true)).bind rotate_right =
      some (RobotState.mk (some 0) (some 0) (some "NORTH") true) ∧
    (rotate_right (RobotState.mk (some 0) (some 0) (some "NORTH") true)).bind rotate_left =
      some (RobotState.mk (some 0) (some 0) (some "NORTH") true) :=
  c7_rotate_round_trip (RobotState.mk (some 0) (some 0) (some "NORTH") true) "NORTH" rfl rfl
    (by decide)

/-- C8: from every placed state with a valid facing, `rotate_left` steps
one place along the cyclic order NORTH→WEST→SOUTH→EAST→NORTH and
`rotate_right` one place along the reverse order, wrapping modulo 4, and
four consecutive applications of either restore the state. -/
theorem c8_rotate_cyclic (s : RobotState) (f : String) (hp : s.is_placed = true)
    (hf : s.facing = some f) (hd : f ∈ DIRECTIONS) :
    rotate_left s = some { s with facing := some (ccwNext f) } ∧
    rotate_right s = some { s with facing := some (cwNext f) } ∧
    (((rotate_left s).bind rotate_left).bind rotate_left).bind rotate_left = some s ∧
    (((rotate_right s).bind rotate_right).bind rotate_right).bind rotate_right = some s := by
  obtain ⟨x, y, fc, p⟩ := s
  have h1 : fc = some f := hf
  have h2 : p = true := hp
  subst h1 h2
  fin_cases hd <;> exact ⟨rfl, rfl, rfl, rfl⟩

/-- Witness for C8 at the placed state (3,1,WEST). -/
theorem c8_rotate_cyclic_witness :
    rotate_left (RobotState.mk (some 3) (some 1) (some "WEST") true) =
      some (RobotState.mk (some 3) (some 1) (some (ccwNext "WEST")) true) ∧
    rotate_right (RobotState.mk (some 3) (some 1) (some "WEST") true) =
      some (RobotState.mk (some 3) (some 1) (some (cwNext "WEST")) true) ∧
    (((rotate_left (RobotState.mk (some 3) (some 1) (some "WEST") true)).bind
        rotate_left).bind rotate_left).bind rotate_left =
      some (RobotState.mk (some 3) (some 1) (some "WEST") true) ∧
    (((rotate_right (RobotState.mk (some 3) (some 1) (some "WEST") true)).bind
        rotate_right).bind rotate_right).bind rotate_right =
      some (RobotState.mk (some 3) (some 1) (some "WEST") true) :=
  c8_rotate_cyclic (RobotState.mk (some 3) (some 1) (some "WEST") true) "WEST" rfl rfl
    (by decide)

/-- C9: the interpreter dispatches on the first whitespace word only —
two lines with the same (non-PLACE) first word are processed identically
whatever follows; two PLACE lines with the same second word likewise; in
particular "MOVE now" executes a move on a placed state, and
"PLACE 1,2,NORTH junk" places the robot at (1,2) facing NORTH. -/
theorem c9_first_token_dispatch :
    (∀ s : RobotState, ∀ l1 l2 w : String, ∀ r1 r2 : List String,
      pySplitWs (pyStrip l1) = w :: r1 → pySplitWs (pyStrip l2) = w :: r2 →
      pyUpper w ≠ "PLACE" → process_line s l1 = process_line s l2) ∧
    (∀ s : RobotState, ∀ l1 l2 w a : String, ∀ r1 r2 : List String,
      pySplitWs (pyStrip l1) = w :: a :: r1 → pySplitWs (pyStrip l2) = w :: a :: r2 →
      process_line s l1 = process_line s l2) ∧
    (∀ s : RobotState, s.is_placed = true →
      process_line s "MOVE now" = (move s).map (fun t => (t, none))) ∧
    (∀ s : RobotState,
      process_line s "PLACE 1,2,NORTH junk" = some (place s 1 2 "NORTH", none)) ∧
    (∀ s : RobotState, place s 1 2 "NORTH" =
      { s with x := some 1, y := some 2, facing := some "NORTH", is_placed := true }) := by
  refine ⟨?_, ?_, ?_, ?_, ?_⟩
  · intro s l1 l2 w r1 r2 h1 h2 hw
    rw [process_line_other_eq h1 hw, process_line_other_eq h2 hw]
  · intro s l1 l2 w a r1 r2 h1 h2
    by_cases hw : pyUpper w = "PLACE"
    · rw [process_line_place_eq h1 hw, process_line_place_eq h2 hw]
      rfl
    · rw [process_line_other_eq h1 hw, process_line_other_eq h2 hw]
  · intro s hp
    obtain ⟨x, y, fc, p⟩ := s
    have h2 : p = true := hp
    subst h2
    rfl
  · intro s
    rfl
  · intro s
    rfl

/-- Witness for C9: on a concrete placed state, "LEFT extra" is processed
exactly like "LEFT". -/
theorem c9_first_token_dispatch_witness :
    process_line (RobotState.mk (some 1) (some 1) (some "NORTH") true) "LEFT extra" =
      process_line (RobotState.mk (some 1) (some 1) (some "NORTH") true) "LEFT" :=
  c9_first_token_dispatch.1 (RobotState.mk (some 1) (some 1) (some "NORTH") true)
    "LEFT extra" "LEFT" "LEFT" ["extra"] [] (by decide) (by decide) (by decide)

/-- C10: `rotate_left` and `rotate_right` never change `x`, `y` or
`is_placed`, and a REPORT line returns the state exactly unchanged (the
pure `report` reads the state without modifying any field). -/
theorem c10_frame (s s' : RobotState) :
    (rotate_left s = some s' → s'.x = s.x ∧ s'.y = s.y ∧ s'.is_placed = s.is_placed) ∧
    (rotate_right s = some s' → s'.x = s.x ∧ s'.y = s.y ∧ s'.is_placed = s.is_placed) ∧
    (process_line s "REPORT" = some (s, report s)) := by
  refine ⟨?_, ?_, ?_⟩
  · intro h
    unfold rotate_left at h
    split at h
    · injection h with h
      subst h
      exact ⟨rfl, rfl, rfl⟩
    · split at h
      · split at h
        · injection h with h
          subst h
          exact ⟨rfl, rfl, rfl⟩
        · exact Option.noConfusion h
      · exact Option.noConfusion h
  · intro h
    unfold rotate_right at h
    split at h
    · injection h with h
      subst h
      exact ⟨rfl, rfl, rfl⟩
    · split at h
      · split at h
        · injection h with h
          subst h
          exact ⟨rfl, rfl, rfl⟩
        · exact Option.noConfusion h
      · exact Option.noConfusion h
  · obtain ⟨x, y, fc, p⟩ := s
    cases p
    · rfl
    · rfl

/-- Witness for C10: rotating left from (2,2,EAST) yields (2,2,NORTH),
which agrees with the original on `x`, `y` and `is_placed`. -/
theorem c10_frame_witness :
    (RobotState.mk (some 2) (some 2) (some "NORTH") true).x =
      (RobotState.mk (some 2) (some 2) (some "EAST") true).x ∧
    (RobotState.mk (some 2) (some 2) (some "NORTH") true).y =
      (RobotState.mk (some 2) (some 2) (some "EAST") true).y ∧
    (RobotState.mk (some 2) (some 2) (some "NORTH") true).is_placed =
      (RobotState.mk (some 2) (some 2) (some "EAST") true).is_placed :=
  (c10_frame (RobotState.mk (some 2) (some 2) (some "EAST") true)
    (RobotState.mk (some 2) (some 2) (some "NORTH") true)).1 (by decide)

end ToyRobot
